import Mathlib

set_option maxRecDepth 100000

/-!
Verification of the ConcertCurator pipeline (src/run.py).

Strings are modelled as `List Char` (Python `str`), Python dicts holding a
concert as a `Concert` structure, and Python exceptions (`IndexError` from
`split(...)[i]` on a missing delimiter) as `Option`: `none` is an uncaught
fault.  Mutation of the working concert list is modelled by explicit state
passing.  Each definition mirrors the function of the same name in
src/run.py.
-/

/-- Python substring test `needle in hay` (contiguous, case-sensitive). -/
def containsSub (needle : List Char) : List Char → Bool
  | [] => needle.isEmpty
  | c :: cs => needle.isPrefixOf (c :: cs) || containsSub needle cs

/-- Index of the first occurrence of `sep` as a contiguous sublist. -/
def findSubIdx (sep : List Char) : List Char → Option Nat
  | [] => if sep.isEmpty then some 0 else none
  | c :: cs =>
    if sep.isPrefixOf (c :: cs) then some 0
    else (findSubIdx sep cs).map (· + 1)

/-- Fuel-driven worker for `pysplit`; one unit of fuel per produced chunk,
so `s.length + 1` units always suffice for a non-empty separator. -/
def pysplitF : Nat → List Char → List Char → List (List Char)
  | 0, _, s => [s]
  | fuel + 1, sep, s =>
    match findSubIdx sep s with
    | none => [s]
    | some i => s.take i :: pysplitF fuel sep (s.drop (i + sep.length))

/-- Python `s.split(sep)` for a non-empty separator: splits at every
non-overlapping occurrence of `sep`, scanning left to right. -/
def pysplit (sep s : List Char) : List (List Char) :=
  pysplitF (s.length + 1) sep s

/-- Python string comparison `a <= b`: lexicographic on code points. -/
def strLe : List Char → List Char → Bool
  | [], _ => true
  | _ :: _, [] => false
  | a :: as, b :: bs =>
    if a.toNat < b.toNat then true
    else if b.toNat < a.toNat then false
    else strLe as bs

/-- The Unicode Cased property as `str.title` consults it
(`_PyUnicode_IsCased` in CPython Objects/unicodeobject.c), exact on the
basic latin range and on U+0130 LATIN CAPITAL LETTER I WITH DOT ABOVE;
every other character of this model is uncased.  In particular U+0307
COMBINING DOT ABOVE is uncased, as in Unicode. -/
def pyCased (c : Char) : Bool :=
  decide ((65 ≤ c.toNat ∧ c.toNat ≤ 90) ∨ (97 ≤ c.toNat ∧ c.toNat ≤ 122) ∨ c.toNat = 304)

/-- The full lowercase mapping of one character (CPython `lower_ucs4`,
which can return more than one character), exact on the basic latin range
and on U+0130, whose lowercase per SpecialCasing.txt is U+0069 U+0307;
every other character maps to itself in this model. -/
def pyLowerFull (c : Char) : List Char :=
  if 65 ≤ c.toNat ∧ c.toNat ≤ 90 then [Char.ofNat (c.toNat + 32)]
  else if c.toNat = 304 then [Char.ofNat 105, Char.ofNat 775]
  else [c]

/-- The full titlecase mapping of one character
(CPython `_PyUnicode_ToTitleFull`), exact on the basic latin range (where
titlecase equals uppercase) and on U+0130 (its own titlecase); every
other character maps to itself in this model. -/
def pyTitleFull (c : Char) : List Char :=
  if 97 ≤ c.toNat ∧ c.toNat ≤ 122 then [Char.ofNat (c.toNat - 32)]
  else [c]

/-- Worker for `pytitle`, the loop of CPython `do_title`
(Objects/unicodeobject.c): a character maps through the full lowercase
mapping when the previous input character was cased, else through the
full titlecase mapping; the flag then records whether this input
character is cased. -/
def pytitleAux : Bool → List Char → List Char
  | _, [] => []
  | prev, c :: cs =>
    (if prev then pyLowerFull c else pyTitleFull c) ++ pytitleAux (pyCased c) cs

/-- Python `s.title()`, modelled from CPython `do_title` with the case
tables above: exact on every string over the basic latin range together
with U+0130 and U+0307, the only characters the results below evaluate
title-casing on. -/
def pytitle (s : List Char) : List Char :=
  pytitleAux false s

/-- The string constant `"USA"`. -/
def usaStr : List Char := "USA".data

/-- The string constant `"United Kingdom"`. -/
def ukStr : List Char := "United Kingdom".data

/-- The string `"d'"` (apostrophe written as an escape). -/
def dAposStr : List Char := ['d', '\x27']

/-- The alias row of run.py line 22. -/
def usaAliases : List (List Char) :=
  ["Usa".data, "U.S.".data, "US".data, "U.S.A.".data, "United States".data]

/-- The alias row of run.py line 24. -/
def ukAliases : List (List Char) :=
  ["Uk".data, "UK".data, "U.K.".data]

/-- One iteration of the loop body of `correct_locations` (run.py 18-25):
the in-place update applied to the element at index `i`. -/
def correct_one (loc : List Char) : List Char :=
  if loc = usaStr then loc
  else
    let t := if containsSub dAposStr loc then loc else pytitle loc
    if t ∈ usaAliases then usaStr
    else if t ∈ ukAliases then ukStr
    else t

/-- `correct_locations` (run.py 14-25): elementwise in-place normalization,
modelled as the list after the loop. -/
def correct_locations (locations : List (List Char)) : List (List Char) :=
  locations.map correct_one

example : correct_locations ["united states".data, "u.k.".data] = [usaStr, ukStr] := by decide
example : correct_locations ["US".data] = ["Us".data] := by decide
example : pytitle "US".data = "Us".data := by decide
example : containsSub "Tour".data "xTour Datesy".data = true := by decide
example : pysplit "b".data "abcbd".data = ["a".data, "c".data, "d".data] := by decide
example : strLe "2023-07-15".data "2023-08-01".data = true := by decide

/-- The concert dict built in `update_for_artist` (run.py 159-175), with
the seven keys it assigns. -/
structure Concert where
  performer : List Char
  date : List Char
  piece : List Char
  venue_name : List Char
  address : List Char
  ticket_site : List Char
  image_url : List Char
deriving DecidableEq

/-- The sort key comparison of run.py line 80: ascending by the `date`
string. -/
def dateLe (a b : Concert) : Bool :=
  strLe a.date b.date

/-- Stable insertion of one element: placed before the first entry it
compares `le` to, hence after every earlier tie. -/
def insortBy (le : α → α → Bool) (x : α) : List α → List α
  | [] => [x]
  | y :: ys => if le x y then x :: y :: ys else y :: insortBy le x ys

/-- `list.sort` with a key (run.py 80): Python Timsort is a stable
ascending sort; its result is the unique stable reordering, realized here
by a structurally recursive stable insertion sort. -/
def isortBy (le : α → α → Bool) : List α → List α
  | [] => []
  | x :: xs => insortBy le x (isortBy le xs)

/-- The string constant `"Any"`. -/
def anyStr : List Char := "Any".data

/-- `sort_concerts` (run.py 76-90).  The pair models the two lists
observable after the call: `.1` is the caller's `all_concerts` after the
in-place sort, `.2` is the returned `concerts_near_me`. -/
def sort_concerts (all_concerts : List Concert) (input_locations : List (List Char)) :
    List Concert × List Concert :=
  let sorted := isortBy dateLe all_concerts
  if input_locations ≠ [anyStr] ∧ input_locations ≠ [([] : List Char)] then
    (sorted, sorted.filter (fun c => input_locations.any (fun loc => containsSub loc c.address)))
  else
    (sorted, sorted)

/-- The page marker `"Tour Dates"`. -/
def tourDatesMark : List Char := "Tour Dates".data

/-- `concerts_on_website` (run.py 137-143). -/
def concerts_on_website (pretty_soup : List Char) : Bool :=
  if containsSub tourDatesMark pretty_soup = false then false else true

/-- The event-block start token `"MusicEvent"` (run.py 155). -/
def musicEventTok : List Char := "MusicEvent".data

/-- The trailing-content delimiter of run.py 156. -/
def performerKey : List Char := "\"performer\":".data

/-- The page-level performer header prefix (run.py 160). -/
def tourDatesDash : List Char := "Tour Dates - ".data

/-- The page-level performer header suffix (run.py 160). -/
def inConcertTok : List Char := " in Concert".data

/-- The left delimiter of the start date (run.py 161). -/
def startDateKey : List Char := "\"startDate\":\"".data

/-- The left delimiter of the venue name (run.py 162). -/
def placeNameKey : List Char := "\"@type\":\"Place\",\"name\":\"".data

/-- The right delimiter of the venue name (run.py 162). -/
def addrSplitKey : List Char := "\",\"address\":".data

/-- The left delimiter of the address (run.py 164). -/
def addressKey : List Char := "\"address\":\"".data

/-- The right delimiter of the address (run.py 164): `"},"offers":`. -/
def offersKey : List Char := "\"\x7d,\"offers\":".data

/-- The left delimiter of the ticket URL (run.py 165). -/
def offerUrlKey : List Char := "\"@type\":\"Offer\",\"url\":\"".data

/-- The right delimiter of the ticket URL (run.py 166). -/
def availKey : List Char := "\",\"availability\":\"".data

/-- The left delimiter of the image URL (run.py 168). -/
def imageKey : List Char := "\"ImageObject\",\"url\":\"".data

/-- The right delimiter of the image URL (run.py 168). -/
def headlineKey : List Char := "\",\"headline\":\"".data

/-- A single newline, the separator of run.py 163. -/
def newlineTok : List Char := ['\n']

/-- Does the text at this position match the regex `T..:..:..`
of run.py 161? -/
def matchTat : List Char → Bool
  | c0 :: _ :: _ :: c3 :: _ :: _ :: c6 :: _ :: _ :: _ =>
    c0 == 'T' && c3 == ':' && c6 == ':'
  | _ => false

/-- `re.split("T..:..:..", s)[0]`: the prefix of `s` before the first
match of the pattern, or all of `s` when it never matches. -/
def truncAtTimePat : List Char → List Char
  | [] => []
  | c :: cs => if matchTat (c :: cs) then [] else c :: truncAtTimePat cs

/-- The date extraction of run.py 161 applied to an event block:
take the text after the first `"startDate":"` and truncate it at the
first match of `T..:..:..`;  `none` models the `IndexError` raised when
the delimiter is missing. -/
def dateOfEvent? (event : List Char) : Option (List Char) :=
  ((pysplit startDateKey event).get? 1).map truncAtTimePat

/-- Python `str.strip()`: whitespace trimmed from both ends. -/
def pyStrip (s : List Char) : List Char :=
  ((s.dropWhile Char.isWhitespace).reverse.dropWhile Char.isWhitespace).reverse

/-- The body of the extraction loop of `update_for_artist`
(run.py 158-176) for one event block; every Python `split(..)[i]` is a
`(pysplit ..).get? i` so that a missing delimiter faults (`none`). -/
def extract_concert (pretty_soup event : List Char) : Option Concert := do
  let p1 ← (pysplit tourDatesDash pretty_soup).get? 1
  let performer ← (pysplit inConcertTok p1).get? 0
  let date ← dateOfEvent? event
  let v1 ← (pysplit placeNameKey event).get? 1
  let venue_name ← (pysplit addrSplitKey v1).get? 0
  let ps ← (pysplit venue_name pretty_soup).getLast?
  let pl ← (pysplit newlineTok ps).get? 4
  let piece := pyStrip pl
  let a1 ← (pysplit addressKey event).get? 1
  let address ← (pysplit offersKey a1).get? 0
  let t1 ← (pysplit offerUrlKey event).get? 1
  let ticket_site ← (pysplit availKey t1).get? 0
  let i1 ← (pysplit imageKey event).get? 1
  let image_url ← (pysplit headlineKey i1).get? 0
  some ⟨performer, date, piece, venue_name, address, ticket_site, image_url⟩

/-- `update_for_artist` (run.py 146-176) given the fetched page text:
returns the extended working list, `some all_concerts` unchanged when the
page shows no tour dates, and `none` on an uncaught extraction fault.
A fault mid-loop drops the appends already made, which is observationally
the same as in the source: the uncaught exception aborts the run before
the working list is read again. -/
def update_for_artist (all_concerts : List Concert) (pretty_soup : List Char) :
    Option (List Concert) := do
  if concerts_on_website pretty_soup = false then
    some all_concerts
  else
    let events0 := (pysplit musicEventTok pretty_soup).drop 1
    let lastEv ← events0.getLast?
    let lastTrunc ← (pysplit performerKey lastEv).get? 0
    let events := events0.dropLast ++ [lastTrunc]
    let newConcerts ← events.mapM (extract_concert pretty_soup)
    some (all_concerts ++ newConcerts)

/-- The per-artist loop of `get_all_concerts` (run.py 186-199), given the
fetched page of each artist in input order; a fault in one iteration
propagates and aborts the whole loop, as the uncaught Python exception
does. -/
def get_all_concerts (pages : List (List Char)) : Option (List Concert) :=
  pages.foldlM (fun acc page => update_for_artist acc page) []

/-- A page with the tour-dates marker and one event block that is missing
the `"startDate":"` delimiter: extraction for this artist faults. -/
def page_bad : List Char :=
  ("Tour Dates - Anna Smith in Concert MusicEvent block missing every field delimiter").data

/-- A page with one complete, well-formed event block. -/
def page_good : List Char :=
  ("Tour Dates - Yuja Wang in Concert\nMusicEvent\"startDate\":\"2023-09-10T00:00:00\",\"@type\":\"Place\",\"name\":\"Main Hall\",\"address\":\"12 Liberty Ave, New York, USA\"\x7d,\"offers\":\"@type\":\"Offer\",\"url\":\"https://tickets.example\",\"availability\":\"InStock\",\"ImageObject\",\"url\":\"https://img.example\",\"headline\":\"promo\"\nrow1\nrow2\nrow3\nBrahms Concerto No 1\ntail").data

/-- The concert encoded by `page_good`. -/
def concert_good : Concert :=
  ⟨"Yuja Wang".data, "2023-09-10".data, "Brahms Concerto No 1".data,
   "Main Hall".data, "12 Liberty Ave, New York, USA".data,
   "https://tickets.example".data, "https://img.example".data⟩

example : update_for_artist [] page_good = some [concert_good] := by decide
example : update_for_artist [] page_bad = none := by decide
example : get_all_concerts [page_bad, page_good] = none := by decide
example : get_all_concerts [page_good] = some [concert_good] := by decide

/-- A page without the tour-dates marker (for the C3 witness). -/
def page_no_marker : List Char := "nothing about concerts here".data

/-- A page with the marker but no event-block token (for the C9 witness). -/
def page_marker_only : List Char := "Tour Dates but no event block follows".data

/-- The five USA-alias inputs of the claim, in the order of the claim. -/
def aliasInputsUSA : List (List Char) :=
  ["Usa".data, "US".data, "U.S.".data, "U.S.A.".data, "United States".data]

/-- The three UK-alias inputs of the claim. -/
def aliasInputsUK : List (List Char) :=
  ["Uk".data, "UK".data, "U.K.".data]

/-- The string `"Us"`, which `"US"` actually becomes. -/
def usTitled : List Char := "Us".data

/-- The Turkish city name DİYARBAKIR (İ is U+0130): the input on which
the normalizer is not idempotent. -/
def diyarbakirStr : List Char := "D\u0130YARBAKIR".data

/-- A concrete all-ASCII location list for the amended C8 witness. -/
def asciiLocsW : List (List Char) := ["new york".data, "usa".data]

/-- The spec's example concert in the USA. -/
def concert_usa : Concert :=
  ⟨"A".data, "2023-09-10".data, "p".data, "v".data, "123 Main St, USA".data,
   "t".data, "i".data⟩

/-- The spec's example concert in France. -/
def concert_fr : Concert :=
  ⟨"B".data, "2023-09-11".data, "p".data, "v".data, "5 Rue X, France".data,
   "t".data, "i".data⟩

/-- A concrete event block for the C4 witness. -/
def event_w : List Char := ("x\"startDate\":\"2023-09-10T00:00:00\" more").data

lemma findSubIdx_eq_none {sep s : List Char} (h : containsSub sep s = false) :
    findSubIdx sep s = none := by
  induction s with
  | nil =>
    simp only [containsSub] at h
    simp [findSubIdx, h]
  | cons c cs ih =>
    simp only [containsSub, Bool.or_eq_false_iff] at h
    simp [findSubIdx, h.1, ih h.2]

lemma pysplit_eq_of_not_contains {sep s : List Char} (h : containsSub sep s = false) :
    pysplit sep s = [s] := by
  simp [pysplit, pysplitF, findSubIdx_eq_none h]

/-- C3.  No-tour-listed gating: when the page text does not contain the
literal marker `"Tour Dates"`, `update_for_artist` returns without fault
and leaves the working concert list unchanged — zero concerts for this
artist. -/
theorem no_tour_marker_keeps_list (pretty_soup : List Char) (acc : List Concert)
    (h : containsSub tourDatesMark pretty_soup = false) :
    update_for_artist acc pretty_soup = some acc := by
  simp [update_for_artist, concerts_on_website, h]

/-- Witness for C3 at a concrete page with no marker. -/
theorem no_tour_marker_keeps_list_witness :
    containsSub tourDatesMark page_no_marker = false ∧
    update_for_artist [concert_good] page_no_marker = some [concert_good] :=
  ⟨by decide, no_tour_marker_keeps_list page_no_marker [concert_good] (by decide)⟩

/-- C9.  Implicit edge case: a page that contains the tour-dates marker
but no `"MusicEvent"` token makes `update_for_artist` fault (run.py 156
indexes `events[-1]` of an empty list) instead of returning zero
concerts. -/
theorem marker_without_events_faults (pretty_soup : List Char) (acc : List Concert)
    (h1 : concerts_on_website pretty_soup = true)
    (h2 : containsSub musicEventTok pretty_soup = false) :
    update_for_artist acc pretty_soup = none := by
  simp [update_for_artist, h1, pysplit_eq_of_not_contains h2]

/-- Witness for C9 at a concrete page with the marker and no event. -/
theorem marker_without_events_faults_witness :
    concerts_on_website page_marker_only = true ∧
    containsSub musicEventTok page_marker_only = false ∧
    update_for_artist [] page_marker_only = none :=
  ⟨by decide, by decide,
   marker_without_events_faults page_marker_only [] (by decide) (by decide)⟩

/-- C1.  The code has no per-artist error isolation: `page_good` alone
extracts its concert, but a batch whose first page is malformed
(`page_bad` lacks the `"startDate":"` delimiter inside its event block)
aborts whole — the uncaught fault also wipes out the results the
remaining artists would have produced. -/
theorem bad_page_aborts_batch :
    update_for_artist [] page_bad = none ∧
    update_for_artist [] page_good = some [concert_good] ∧
    get_all_concerts [page_bad, page_good] = none :=
  ⟨by decide, by decide, by decide⟩


/-- C2.  Alias normalization is broken for the input `"US"`: run.py line
21 title-cases it to `"Us"` before line 22 compares against the alias
row, so the `"US"` entry of that row is dead and the result is `"Us"`,
not `"USA"`.  Every other alias input of the claim maps as stated. -/
theorem us_alias_not_normalized :
    correct_locations aliasInputsUSA = [usaStr, usTitled, usaStr, usaStr, usaStr] ∧
    correct_locations aliasInputsUK = [ukStr, ukStr, ukStr] ∧
    usTitled ≠ usaStr :=
  ⟨by decide, by decide, by decide⟩

lemma digit_ne_T {c : Char} (h : c.isDigit = true) : c ≠ 'T' := by
  intro he
  rw [he] at h
  exact absurd h (by decide)

lemma digit_beq_T_eq_false {c : Char} (h : c.isDigit = true) : (c == 'T') = false :=
  beq_eq_false_iff_ne.mpr (digit_ne_T h)

/-- C4.  Date truncation: when the text after the `"startDate":"`
delimiter of an event block starts with an ISO-8601 timestamp
`YYYY-MM-DDTHH:MM:SS`, the extracted `date` is exactly its `YYYY-MM-DD`
prefix — the regex split of run.py 161 cuts at the `T..:..:..` time
component. -/
theorem date_truncated (event rest : List Char)
    (y1 y2 y3 y4 m1 m2 d1 d2 o1 o2 n1 n2 s1 s2 : Char)
    (hy1 : y1.isDigit = true) (hy2 : y2.isDigit = true)
    (hy3 : y3.isDigit = true) (hy4 : y4.isDigit = true)
    (hm1 : m1.isDigit = true) (hm2 : m2.isDigit = true)
    (hd1 : d1.isDigit = true) (hd2 : d2.isDigit = true)
    (ho1 : o1.isDigit = true) (ho2 : o2.isDigit = true)
    (hn1 : n1.isDigit = true) (hn2 : n2.isDigit = true)
    (hs1 : s1.isDigit = true) (hs2 : s2.isDigit = true)
    (hsplit : (pysplit startDateKey event).get? 1 =
      some ([y1, y2, y3, y4, '-', m1, m2, '-', d1, d2, 'T',
             o1, o2, ':', n1, n2, ':', s1, s2] ++ rest)) :
    dateOfEvent? event = some [y1, y2, y3, y4, '-', m1, m2, '-', d1, d2] := by
  simp only [dateOfEvent?, hsplit, Option.map_some', Option.some.injEq, List.cons_append,
    List.nil_append]
  simp [truncAtTimePat, matchTat, digit_beq_T_eq_false, hy1, hy2, hy3, hy4, hm1, hm2,
    hd1, hd2, ho1, ho2, hn1, hn2, hs1, hs2]

lemma strLe_refl : ∀ s : List Char, strLe s s = true
  | [] => rfl
  | c :: cs => by simp [strLe, Nat.lt_irrefl, strLe_refl cs]

lemma strLe_total : ∀ a b : List Char, (strLe a b || strLe b a) = true
  | [], b => by simp [strLe]
  | a :: as, [] => by simp [strLe]
  | a :: as, b :: bs => by
    simp only [strLe]
    rcases Nat.lt_trichotomy a.toNat b.toNat with h | h | h
    · simp [h]
    · have h1 : ¬ a.toNat < b.toNat := by omega
      have h2 : ¬ b.toNat < a.toNat := by omega
      simp only [if_neg h1, if_neg h2]
      exact strLe_total as bs
    · simp [h, Nat.lt_asymm h]

lemma strLe_trans : ∀ a b c : List Char,
    strLe a b = true → strLe b c = true → strLe a c = true
  | [], _, _, _, _ => by simp [strLe]
  | _ :: _, [], _, h1, _ => by simp [strLe] at h1
  | _ :: _, _ :: _, [], _, h2 => by simp [strLe] at h2
  | a :: as, b :: bs, c :: cs, h1, h2 => by
    simp only [strLe] at h1 h2 ⊢
    by_cases hab : a.toNat < b.toNat
    · by_cases hbc : b.toNat < c.toNat
      · simp [show a.toNat < c.toNat from by omega]
      · by_cases hcb : c.toNat < b.toNat
        · rw [if_neg hbc, if_pos hcb] at h2
          exact absurd h2 (by simp)
        · simp [show a.toNat < c.toNat from by omega]
    · by_cases hba : b.toNat < a.toNat
      · rw [if_neg hab, if_pos hba] at h1
        exact absurd h1 (by simp)
      · by_cases hbc : b.toNat < c.toNat
        · simp [show a.toNat < c.toNat from by omega]
        · by_cases hcb : c.toNat < b.toNat
          · rw [if_neg hbc, if_pos hcb] at h2
            exact absurd h2 (by simp)
          · rw [if_neg hab, if_neg hba] at h1
            rw [if_neg hbc, if_neg hcb] at h2
            rw [if_neg (show ¬ a.toNat < c.toNat from by omega),
              if_neg (show ¬ c.toNat < a.toNat from by omega)]
            exact strLe_trans as bs cs h1 h2

lemma dateLe_refl (a : Concert) : dateLe a a = true :=
  strLe_refl a.date

lemma dateLe_total (a b : Concert) : (dateLe a b || dateLe b a) = true :=
  strLe_total a.date b.date

lemma dateLe_trans (a b c : Concert) :
    dateLe a b = true → dateLe b c = true → dateLe a c = true :=
  strLe_trans a.date b.date c.date

section StableSort

variable {α : Type} (le : α → α → Bool)

lemma insortBy_perm (x : α) (l : List α) : List.Perm (insortBy le x l) (x :: l) := by
  induction l with
  | nil => exact List.Perm.refl _
  | cons y ys ih =>
    cases hxy : le x y
    · simp only [insortBy, hxy, Bool.false_eq_true, if_false]
      exact (ih.cons y).trans (List.Perm.swap x y ys)
    · simp [insortBy, hxy]

lemma isortBy_perm (l : List α) : List.Perm (isortBy le l) l := by
  induction l with
  | nil => exact List.Perm.refl _
  | cons x xs ih => exact (insortBy_perm le x (isortBy le xs)).trans (ih.cons x)

lemma mem_insortBy {a x : α} {l : List α} :
    a ∈ insortBy le x l ↔ a = x ∨ a ∈ l := by
  rw [(insortBy_perm le x l).mem_iff, List.mem_cons]

lemma insortBy_pairwise
    (total : ∀ a b : α, (le a b || le b a) = true)
    (trans : ∀ a b c : α, le a b = true → le b c = true → le a c = true)
    (x : α) (l : List α) (hl : l.Pairwise (fun a b => le a b = true)) :
    (insortBy le x l).Pairwise (fun a b => le a b = true) := by
  induction l with
  | nil => simp [insortBy]
  | cons y ys ih =>
    rcases List.pairwise_cons.mp hl with ⟨hy, hys⟩
    cases hxy : le x y
    · have hyx : le y x = true := by
        have ht := total x y
        rw [hxy] at ht
        simpa using ht
      simp only [insortBy, hxy, Bool.false_eq_true, if_false]
      refine List.pairwise_cons.mpr ⟨?_, ih hys⟩
      intro b hb
      rcases (mem_insortBy le).mp hb with rfl | hb
      · exact hyx
      · exact hy b hb
    · simp only [insortBy, hxy, if_true]
      refine List.pairwise_cons.mpr ⟨?_, hl⟩
      intro b hb
      rcases List.mem_cons.mp hb with rfl | hb
      · exact hxy
      · exact trans x y b hxy (hy b hb)

lemma isortBy_pairwise
    (total : ∀ a b : α, (le a b || le b a) = true)
    (trans : ∀ a b c : α, le a b = true → le b c = true → le a c = true)
    (l : List α) : (isortBy le l).Pairwise (fun a b => le a b = true) := by
  induction l with
  | nil => simp [isortBy]
  | cons x xs ih => exact insortBy_pairwise le total trans x _ ih

lemma filter_insortBy_pos (p : α → Bool) (x : α) (l : List α)
    (hpx : p x = true) (hle : ∀ b, p b = true → le x b = true) :
    (insortBy le x l).filter p = x :: l.filter p := by
  induction l with
  | nil => simp [insortBy, hpx]
  | cons y ys ih =>
    cases hxy : le x y
    · have hpy : p y = false := by
        cases hpy : p y
        · rfl
        · have := hle y hpy
          rw [hxy] at this
          exact absurd this (by simp)
      simp only [insortBy, hxy, Bool.false_eq_true, if_false]
      simp [List.filter_cons, hpy, ih]
    · simp [insortBy, hxy, List.filter_cons, hpx]

lemma filter_insortBy_neg (p : α → Bool) (x : α) (l : List α) (hpx : p x = false) :
    (insortBy le x l).filter p = l.filter p := by
  induction l with
  | nil => simp [insortBy, hpx]
  | cons y ys ih =>
    cases hxy : le x y
    · simp only [insortBy, hxy, Bool.false_eq_true, if_false]
      simp [List.filter_cons, ih]
    · simp [insortBy, hxy, List.filter_cons, hpx]

lemma filter_isortBy (p : α → Bool)
    (hp : ∀ a b, p a = true → p b = true → le a b = true) :
    ∀ l : List α, (isortBy le l).filter p = l.filter p
  | [] => rfl
  | x :: xs => by
    cases hpx : p x
    · rw [isortBy, filter_insortBy_neg le p x _ hpx, filter_isortBy p hp xs,
        List.filter_cons_of_neg (by simp [hpx])]
    · rw [isortBy, filter_insortBy_pos le p x _ hpx (fun b hb => hp x b hpx hb),
        filter_isortBy p hp xs, List.filter_cons_of_pos hpx]

end StableSort

/-- C7.  Sort correctness and stability: the sorted working list of
run.py 80 is a permutation of the input, pairwise ascending under the
lexicographic date comparison, and for every date value the concerts
carrying it appear in their original relative order (stable sort). -/
theorem sort_stable_by_date (cs : List Concert) :
    List.Perm (isortBy dateLe cs) cs ∧
    (isortBy dateLe cs).Pairwise (fun a b => dateLe a b = true) ∧
    ∀ d : List Char, (isortBy dateLe cs).filter (fun c => c.date == d) =
      cs.filter (fun c => c.date == d) := by
  refine ⟨isortBy_perm dateLe cs, isortBy_pairwise dateLe dateLe_total dateLe_trans cs, ?_⟩
  intro d
  refine filter_isortBy dateLe (fun c => c.date == d) ?_ cs
  intro a b ha hb
  have ha' : a.date = d := by simpa using ha
  have hb' : b.date = d := by simpa using hb
  simp only [dateLe, ha', hb']
  exact strLe_refl d

/-- C6.  Filter identity: with location list exactly `["Any"]` or
exactly `[""]`, `sort_concerts` returns the input to the filtering step
(the date-sorted working list) unchanged. -/
theorem filter_any_is_identity (cs : List Concert) :
    (sort_concerts cs [anyStr]).2 = isortBy dateLe cs ∧
    (sort_concerts cs [([] : List Char)]).2 = isortBy dateLe cs := by
  constructor <;> simp [sort_concerts]

/-- C5.  Location filter semantics: for a location list other than
exactly `["Any"]` or `[""]`, the returned list keeps a concert iff at
least one location string occurs as a contiguous case-sensitive
substring of its `address` field. -/
theorem filter_membership_iff (cs : List Concert) (locs : List (List Char)) (c : Concert)
    (h1 : locs ≠ [anyStr]) (h2 : locs ≠ [([] : List Char)]) :
    c ∈ (sort_concerts cs locs).2 ↔
      c ∈ cs ∧ locs.any (fun loc => containsSub loc c.address) = true := by
  simp only [sort_concerts]
  rw [if_pos ⟨h1, h2⟩]
  simp [List.mem_filter, (isortBy_perm dateLe cs).mem_iff]


/-- Witness for C5 at the spec's own filtering example. -/
theorem filter_membership_iff_witness :
    concert_usa ∈ (sort_concerts [concert_usa, concert_fr] [usaStr]).2 ↔
      concert_usa ∈ [concert_usa, concert_fr] ∧
        ([usaStr] : List (List Char)).any
          (fun loc => containsSub loc concert_usa.address) = true :=
  filter_membership_iff [concert_usa, concert_fr] [usaStr] concert_usa
    (by decide) (by decide)

/-- C10.  Frame effect of `sort_concerts`: after the call the caller's
`all_concerts` list (the `.1` component) holds the same concerts
reordered ascending by date, and every element of the returned filtered
list (`.2`) comes from the input list. -/
theorem sort_concerts_frame (cs : List Concert) (locs : List (List Char)) :
    List.Perm (sort_concerts cs locs).1 cs ∧
    (sort_concerts cs locs).1.Pairwise (fun a b => dateLe a b = true) ∧
    ∀ c ∈ (sort_concerts cs locs).2, c ∈ cs := by
  have h1 : (sort_concerts cs locs).1 = isortBy dateLe cs := by
    simp only [sort_concerts]
    split <;> rfl
  refine ⟨?_, ?_, ?_⟩
  · rw [h1]
    exact isortBy_perm dateLe cs
  · rw [h1]
    exact isortBy_pairwise dateLe dateLe_total dateLe_trans cs
  · intro c hc
    by_cases hcond : locs ≠ [anyStr] ∧ locs ≠ [([] : List Char)]
    · simp only [sort_concerts, if_pos hcond] at hc
      exact (isortBy_perm dateLe cs).mem_iff.mp (List.mem_filter.mp hc).1
    · simp only [sort_concerts, if_neg hcond] at hc
      exact (isortBy_perm dateLe cs).mem_iff.mp hc

lemma toNat_ofNat_lt {n : Nat} (h : n < 55296) : (Char.ofNat n).toNat = n := by
  rw [Char.ofNat, dif_pos (Or.inl h)]
  rfl

/-- On a basic latin character, one `do_title` step maps to a single
character `d` that a second pass maps to itself, with the same cased
status as the input character. -/
lemma ascii_title_step (b : Bool) (c : Char) (hc : c.toNat < 128) :
    ∃ d : Char, (if b then pyLowerFull c else pyTitleFull c) = [d] ∧
      (if b then pyLowerFull d else pyTitleFull d) = [d] ∧
      pyCased d = pyCased c := by
  by_cases hU : 65 ≤ c.toNat ∧ c.toNat ≤ 90
  · cases b
    · have ht : pyTitleFull c = [c] := by rw [pyTitleFull, if_neg (by omega)]
      exact ⟨c, ht, ht, rfl⟩
    · have hdn : (Char.ofNat (c.toNat + 32)).toNat = c.toNat + 32 :=
        toNat_ofNat_lt (by omega)
      have h1 : pyLowerFull c = [Char.ofNat (c.toNat + 32)] := by
        rw [pyLowerFull, if_pos hU]
      have h2 : pyLowerFull (Char.ofNat (c.toNat + 32)) = [Char.ofNat (c.toNat + 32)] := by
        rw [pyLowerFull, if_neg (by rw [hdn]; omega), if_neg (by rw [hdn]; omega)]
      have h3 : pyCased (Char.ofNat (c.toNat + 32)) = pyCased c := by
        rw [pyCased, pyCased, hdn]
        exact decide_eq_decide.mpr (by omega)
      exact ⟨Char.ofNat (c.toNat + 32), h1, h2, h3⟩
  · by_cases hL : 97 ≤ c.toNat ∧ c.toNat ≤ 122
    · cases b
      · have hdn : (Char.ofNat (c.toNat - 32)).toNat = c.toNat - 32 :=
          toNat_ofNat_lt (by omega)
        have h1 : pyTitleFull c = [Char.ofNat (c.toNat - 32)] := by
          rw [pyTitleFull, if_pos hL]
        have h2 : pyTitleFull (Char.ofNat (c.toNat - 32)) = [Char.ofNat (c.toNat - 32)] := by
          rw [pyTitleFull, if_neg (by rw [hdn]; omega)]
        have h3 : pyCased (Char.ofNat (c.toNat - 32)) = pyCased c := by
          rw [pyCased, pyCased, hdn]
          exact decide_eq_decide.mpr (by omega)
        exact ⟨Char.ofNat (c.toNat - 32), h1, h2, h3⟩
      · have h1 : pyLowerFull c = [c] := by
          rw [pyLowerFull, if_neg hU, if_neg (by omega)]
        exact ⟨c, h1, h1, rfl⟩
    · have hlow : pyLowerFull c = [c] := by
        rw [pyLowerFull, if_neg hU, if_neg (by omega)]
      have htit : pyTitleFull c = [c] := by rw [pyTitleFull, if_neg hL]
      cases b
      · exact ⟨c, htit, htit, rfl⟩
      · exact ⟨c, hlow, hlow, rfl⟩

lemma pytitleAux_idem_ascii : ∀ (l : List Char), (∀ c ∈ l, c.toNat < 128) → ∀ (b : Bool),
    pytitleAux b (pytitleAux b l) = pytitleAux b l
  | [], _, _ => rfl
  | c :: cs, h, b => by
    obtain ⟨d, h1, h2, h3⟩ := ascii_title_step b c (h c (List.mem_cons_self c cs))
    have hcs : ∀ x ∈ cs, x.toNat < 128 := fun x hx => h x (List.mem_cons_of_mem c hx)
    simp only [pytitleAux, h1, h2, h3, List.singleton_append]
    exact congrArg (List.cons d) (pytitleAux_idem_ascii cs hcs (pyCased c))

/-- `str.title` is idempotent on strings over the basic latin range (it
is not over full Unicode: the lowercase of U+0130 is U+0069 U+0307, and
the uncased combining mark restarts a word on the second pass). -/
lemma pytitle_idem_ascii (s : List Char) (h : ∀ c ∈ s, c.toNat < 128) :
    pytitle (pytitle s) = pytitle s :=
  pytitleAux_idem_ascii s h false

lemma correct_one_fix_dApos (t : List Char) (h1 : t ≠ usaStr)
    (h2 : containsSub dAposStr t = true)
    (h3 : t ∉ usaAliases) (h4 : t ∉ ukAliases) : correct_one t = t := by
  simp only [correct_one, if_neg h1, h2, if_true]
  rw [if_neg h3, if_neg h4]

lemma correct_one_fix_title (t : List Char) (h1 : t ≠ usaStr)
    (h2 : pytitle t = t)
    (h3 : t ∉ usaAliases) (h4 : t ∉ ukAliases) : correct_one t = t := by
  have hinner : (if containsSub dAposStr t then t else pytitle t) = t := by
    cases hc : containsSub dAposStr t
    · simp [h2]
    · simp
  simp only [correct_one, if_neg h1, hinner]
  rw [if_neg h3, if_neg h4]

lemma correct_one_idem_ascii (loc : List Char) (hloc : ∀ c ∈ loc, c.toNat < 128) :
    correct_one (correct_one loc) = correct_one loc := by
  by_cases h0 : loc = usaStr
  · have h : correct_one loc = loc := by rw [correct_one, if_pos h0]
    rw [h, h]
  · have hbody : correct_one loc =
      (if (if containsSub dAposStr loc then loc else pytitle loc) ∈ usaAliases then usaStr
       else if (if containsSub dAposStr loc then loc else pytitle loc) ∈ ukAliases then ukStr
       else (if containsSub dAposStr loc then loc else pytitle loc)) := by
      simp only [correct_one, if_neg h0]
    generalize htdef : (if containsSub dAposStr loc then loc else pytitle loc) = t at hbody
    by_cases hU : t ∈ usaAliases
    · rw [hbody, if_pos hU]
      decide
    · by_cases hK : t ∈ ukAliases
      · rw [hbody, if_neg hU, if_pos hK]
        decide
      · rw [hbody, if_neg hU, if_neg hK]
        by_cases hT : t = usaStr
        · rw [hT]
          decide
        · cases hc : containsSub dAposStr loc
          · have ht2 : t = pytitle loc := by rw [← htdef, hc]; simp
            have hpt : pytitle t = t := by
              rw [ht2]
              exact pytitle_idem_ascii loc hloc
            exact correct_one_fix_title t hT hpt hU hK
          · have ht2 : t = loc := by rw [← htdef, hc]; simp
            have hcT : containsSub dAposStr t = true := by rw [ht2]; exact hc
            exact correct_one_fix_dApos t hT hcT hU hK

/-- Counterexample to C8 as stated: the normalizer is not idempotent
over unrestricted input.  On the Turkish city name DİYARBAKIR the first
pass lowercases İ (U+0130) to the two characters U+0069 U+0307; the
combining mark is uncased, so the second pass title-cases the following
letter, and the two results differ — exactly CPython,
`"DİYARBAKIR".title() = "Di̇yarbakir"` but
`"Di̇yarbakir".title() = "Di̇Yarbakir"`. -/
theorem correct_locations_not_idempotent :
    correct_locations (correct_locations [diyarbakirStr]) ≠
      correct_locations [diyarbakirStr] := by decide

/-- C8, amended.  The locale normalizer is idempotent on every list of
location strings over the basic latin range: running
`correct_locations` on its own output changes nothing.  (Over full
Unicode the claim fails, see `correct_locations_not_idempotent`.) -/
theorem correct_locations_idempotent_ascii (locs : List (List Char))
    (h : ∀ s ∈ locs, ∀ c ∈ s, c.toNat < 128) :
    correct_locations (correct_locations locs) = correct_locations locs := by
  rw [correct_locations, correct_locations, List.map_map]
  exact List.map_congr_left fun a ha => correct_one_idem_ascii a (h a ha)

/-- Witness for the amended C8 at a concrete all-ASCII list. -/
theorem correct_locations_idempotent_ascii_witness :
    (∀ s ∈ asciiLocsW, ∀ c ∈ s, c.toNat < 128) ∧
    correct_locations (correct_locations asciiLocsW) = correct_locations asciiLocsW :=
  ⟨by decide, correct_locations_idempotent_ascii asciiLocsW (by decide)⟩


/-- Witness for C4 at the spec's own example timestamp. -/
theorem date_truncated_witness :
    (pysplit startDateKey event_w).get? 1 =
      some (['2', '0', '2', '3', '-', '0', '9', '-', '1', '0', 'T',
             '0', '0', ':', '0', '0', ':', '0', '0'] ++ "\x22 more".data) ∧
    dateOfEvent? event_w = some ['2', '0', '2', '3', '-', '0', '9', '-', '1', '0'] :=
  ⟨by decide,
   date_truncated event_w ("\x22 more".data) '2' '0' '2' '3' '0' '9' '1' '0' '0' '0'
     '0' '0' '0' '0' (by decide) (by decide) (by decide) (by decide) (by decide)
     (by decide) (by decide) (by decide) (by decide) (by decide) (by decide)
     (by decide) (by decide) (by decide) (by decide)⟩
